import Mathlib

/-!
Shallow embedding of the market data ingestion pipeline
(src/hmm-service/data_pipeline.py) and proofs of its specified properties.

Python floats are modelled as rationals, Python ints as integers or
naturals, wall-clock instants as rationals, and the mutable pipeline
object as an explicit state record threaded through each operation.
Exceptions caught inside the code are modelled by the corresponding
early-return branches; total Lean functions model the fact that no
exception escapes across the ingest boundary.
-/

namespace DataPipeline

/-- Model of a Python datetime value: calendar fields plus an optional
UTC offset in whole minutes (none models a naive datetime). -/
structure PyDatetime where
  year : Nat
  month : Nat
  day : Nat
  hour : Nat
  minute : Nat
  second : Nat
  microsecond : Nat
  tzOffset : Option Int
deriving DecidableEq, Repr

/-- Embedding of the MarketDataPoint dataclass. The timestamp is an
Option because the code itself guards with `if not data_point.timestamp`.
Metadata is an opaque association list, never interpreted by the
pipeline. -/
structure MarketDataPoint where
  symbol : String
  timestamp : Option PyDatetime
  price : ℚ
  volume : ℤ
  bid : Option ℚ
  ask : Option ℚ
  source : String
  data_type : String
  metadata : Option (List (String × String))
deriving DecidableEq, Repr

/-- DataQualityValidator state: the per-symbol price history dictionary
(an association list of symbol to the list of retained prices, oldest
first). -/
structure ValidatorState where
  price_history : List (String × List ℚ)
deriving DecidableEq, Repr

/-- The max_history capacity of each per-symbol deque. -/
def max_history : Nat := 100

/-- Dictionary lookup in the price-history dict; a missing symbol reads
as the empty (freshly created) deque. -/
def histFind : List (String × List ℚ) → String → List ℚ
  | [], _ => []
  | (s, ps) :: rest, sym => if s = sym then ps else histFind rest sym

/-- Dictionary update in the price-history dict, inserting the symbol if
absent. -/
def histSet : List (String × List ℚ) → String → List ℚ → List (String × List ℚ)
  | [], sym, ps => [(sym, ps)]
  | (s, qs) :: rest, sym, ps =>
    if s = sym then (s, ps) :: rest else (s, qs) :: histSet rest sym ps

/-- Appending to a deque with a maxlen: the oldest entries are evicted
once the capacity is exceeded. -/
def dequeAppend (maxlen : Nat) (l : List ℚ) (x : ℚ) : List ℚ :=
  let l2 := l ++ [x]
  l2.drop (l2.length - maxlen)

/-- The slice list(history)[-10:]: the 10 most recent prices. -/
def lastTen (l : List ℚ) : List ℚ := l.drop (l.length - 10)

/-- The mean of the 10 most recent history prices of a symbol, as
computed by validate_price_data (sum divided by the slice length). -/
def recent_avg (st : ValidatorState) (sym : String) : ℚ :=
  let recent := lastTen (histFind st.price_history sym)
  recent.sum / (recent.length : ℚ)

/-- Result of DataQualityValidator.validate_price_data: the boolean
return value, whether the anomaly warning was logged, and the validator
state after the call. -/
structure ValidationResult where
  accepted : Bool
  anomaly_flag : Bool
  state : ValidatorState
deriving DecidableEq, Repr

/-- Embedding of DataQualityValidator.validate_price_data. Rejects
non-positive prices and negative volumes before touching the history;
with more than 10 retained prices it compares the new price against the
mean of the last 10 and flags (but does not reject) a deviation above
50 percent; a zero mean models the ZeroDivisionError caught by the
except handler, which returns False without appending. On acceptance the
price is appended to the bounded history. -/
def validate_price_data (st : ValidatorState) (p : MarketDataPoint) : ValidationResult :=
  if p.price ≤ 0 then ⟨false, false, st⟩
  else if p.volume < 0 then ⟨false, false, st⟩
  else
    let history := histFind st.price_history p.symbol
    let proceed : Bool × Bool :=
      if 10 < history.length then
        let avg := recent_avg st p.symbol
        if avg = 0 then (false, false)
        else (true, decide ((1 : ℚ)/2 < |p.price - avg| / avg))
      else (true, false)
    if proceed.1 then
      ⟨true, proceed.2,
        ⟨histSet st.price_history p.symbol (dequeAppend max_history history p.price)⟩⟩
    else ⟨false, false, st⟩

/-- Pipeline configuration drawn from the config dictionary. -/
structure PipelineConfig where
  batch_size : Nat
  batch_timeout : ℚ
  kafka_enabled : Bool
  postgresql_enabled : Bool
deriving DecidableEq, Repr

/-- Observable state of a DataIngestionPipeline instance: the running
flag, the bounded asyncio queue contents, the validator, the metrics
counters, the trace of Kafka publishes, the number of spawned batch
processor tasks, and whether the sinks were closed by stop. -/
structure PipelineState where
  running : Bool
  data_queue : List MarketDataPoint
  validator : ValidatorState
  total_processed : Nat
  valid_points : Nat
  rejected_points : Nat
  start_time : Option ℚ
  last_batch_time : Option ℚ
  latency_samples : List ℚ
  published : List (String × MarketDataPoint)
  processor_tasks : Nat
  sinks_closed : Bool
deriving DecidableEq, Repr

/-- A freshly constructed pipeline: not running, empty queue, empty
history, all counters zero. -/
def initPipeline : PipelineState :=
  ⟨false, [], ⟨[]⟩, 0, 0, 0, none, none, [], [], 0, false⟩

/-- Kafka topic name derived from a symbol. -/
def kafka_topic (sym : String) : String := "market_data_" ++ sym.toLower

/-- Result of DataIngestionPipeline.ingest_data_point: the boolean
return value, the data point as the caller sees it after the call (the
code mutates a missing timestamp in place), and the new pipeline
state. -/
structure IngestResult where
  result : Bool
  point : MarketDataPoint
  state : PipelineState
deriving DecidableEq, Repr

/-- Embedding of DataIngestionPipeline.ingest_data_point. The current
wall-clock datetime (used to stamp a missing timestamp) and the measured
latency sample are passed in explicitly. A validation failure increments
rejected_points and returns false; otherwise the point (stamped if its
timestamp was absent) is enqueued, published to Kafka when enabled, and
the counters and the bounded latency ring are updated. The except
handler in the code means no exception ever reaches the caller, which
the total function models. -/
def ingest_data_point (cfg : PipelineConfig) (st : PipelineState)
    (p : MarketDataPoint) (now : PyDatetime) (latency_ms : ℚ) : IngestResult :=
  let v := validate_price_data st.validator p
  if v.accepted then
    let p2 := match p.timestamp with
      | none => { p with timestamp := some now }
      | some _ => p
    let published2 :=
      if cfg.kafka_enabled then st.published ++ [(kafka_topic p2.symbol, p2)]
      else st.published
    ⟨true, p2,
      { st with
          validator := v.state,
          data_queue := st.data_queue ++ [p2],
          published := published2,
          total_processed := st.total_processed + 1,
          valid_points := st.valid_points + 1,
          latency_samples := dequeAppend 1000 st.latency_samples latency_ms }⟩
  else
    ⟨false, p,
      { st with
          validator := v.state,
          rejected_points := st.rejected_points + 1 }⟩

/-- Folding ingest_data_point over a sequence of calls, each with its
own point, stamping time and latency sample. -/
def ingestList (cfg : PipelineConfig) (st : PipelineState) :
    List (MarketDataPoint × PyDatetime × ℚ) → PipelineState
  | [] => st
  | (p, now, lat) :: rest =>
    ingestList cfg (ingest_data_point cfg st p now lat).state rest

/-- The metrics dictionary returned by get_metrics. -/
structure MetricsSnapshot where
  total_processed : Nat
  valid_points : Nat
  rejected_points : Nat
  throughput_per_sec : ℚ
  avg_latency_ms : ℚ
  max_latency_ms : ℚ
  queue_size : Nat
deriving DecidableEq, Repr

/-- Maximum of a nonempty latency sample list, as Python max. -/
def listMax : List ℚ → ℚ
  | [] => 0
  | x :: xs => xs.foldl max x

/-- Embedding of DataIngestionPipeline.get_metrics at wall-clock time
now. Note the code divides total_processed by max(elapsed, 1), not by
the raw elapsed time. -/
def get_metrics (st : PipelineState) (now : ℚ) : MetricsSnapshot :=
  let throughput : ℚ :=
    match st.start_time with
    | some t0 => (st.total_processed : ℚ) / max (now - t0) 1
    | none => 0
  let avg : ℚ :=
    if st.latency_samples = [] then 0
    else st.latency_samples.sum / (st.latency_samples.length : ℚ)
  let mx : ℚ := if st.latency_samples = [] then 0 else listMax st.latency_samples
  ⟨st.total_processed, st.valid_points, st.rejected_points,
    throughput, avg, mx, st.data_queue.length⟩

/-- Embedding of DataIngestionPipeline.start at wall-clock time now: a
no-op when already running, otherwise sets the running flag and the
start time and spawns the batch processor task. -/
def start (st : PipelineState) (now : ℚ) : PipelineState :=
  if st.running then st
  else
    { st with
        running := true,
        start_time := some now,
        processor_tasks := st.processor_tasks + 1 }

/-- Embedding of DataIngestionPipeline.stop: a no-op when not running,
otherwise clears the running flag and closes the sink connections. -/
def stop (st : PipelineState) : PipelineState :=
  if st.running then { st with running := false, sinks_closed := true }
  else st

/-- PostgreSQLStorage state: whether the connection pool was
initialized, and the list of committed batches (the rows of the
market_data table, grouped by the transaction that wrote them). -/
structure StorageState where
  pool : Bool
  committed : List (List MarketDataPoint)
deriving DecidableEq, Repr

/-- Embedding of PostgreSQLStorage.store_batch. The writeOk oracle
models whether the batch insert and commit succeed; on any write error
the exception handler returns False and, since commit was never reached,
no row of the batch is committed. A missing pool or an empty batch also
return False without committing. -/
def store_batch (writeOk : List MarketDataPoint → Bool) (st : StorageState)
    (data_points : List MarketDataPoint) : Bool × StorageState :=
  if st.pool = false ∨ data_points = [] then (false, st)
  else if writeOk data_points then
    (true, { st with committed := st.committed ++ [data_points] })
  else (false, st)

/-- Local state of the _batch_processor loop: the in-memory batch, the
last-flush time, the storage sink state, and the last_batch_time metric
it maintains. -/
structure BatchProcState where
  batch : List MarketDataPoint
  last_flush : ℚ
  storage : StorageState
  last_batch_time : Option ℚ
deriving DecidableEq, Repr

/-- The should_flush condition computed in each loop iteration, on the
batch as it stands after the optional append. -/
def should_flush (cfg : PipelineConfig) (batch : List MarketDataPoint)
    (now last_flush : ℚ) : Bool :=
  decide (cfg.batch_size ≤ batch.length) ||
    (decide (batch ≠ []) && decide (cfg.batch_timeout ≤ now - last_flush))

/-- The storage interaction of one flush: when a storage sink is
configured the batch is handed to store_batch (whose boolean outcome the
loop only logs), otherwise the storage state is untouched. -/
def flushStorage (cfg : PipelineConfig)
    (writeOk : List MarketDataPoint → Bool) (stor : StorageState)
    (batch : List MarketDataPoint) : StorageState :=
  if cfg.postgresql_enabled then (store_batch writeOk stor batch).2 else stor

/-- One iteration of the _batch_processor loop. The event is the result
of the 100ms-bounded queue get (some point, or none on timeout) and now
is the wall-clock time read in this iteration. Returns the new loop
state and the batch flushed in this iteration, if any. On a flush the
batch is handed to the storage sink when one is configured, the batch is
cleared, and last_flush is reset to now regardless of the write
outcome. -/
def batch_processor_step (cfg : PipelineConfig)
    (writeOk : List MarketDataPoint → Bool) (s : BatchProcState)
    (ev : Option MarketDataPoint) (now : ℚ) :
    BatchProcState × Option (List MarketDataPoint) :=
  let batch2 := s.batch ++ ev.toList
  if should_flush cfg batch2 now s.last_flush && decide (batch2 ≠ []) then
    (⟨[], now, flushStorage cfg writeOk s.storage batch2, some now⟩, some batch2)
  else (⟨batch2, s.last_flush, s.storage, s.last_batch_time⟩, none)

/-- Running the _batch_processor loop over a finite schedule of queue
events and their observation times, collecting the flushed batches in
order. -/
def batch_processor_run (cfg : PipelineConfig)
    (writeOk : List MarketDataPoint → Bool) (s : BatchProcState) :
    List (Option MarketDataPoint × ℚ) → BatchProcState × List (List MarketDataPoint)
  | [] => (s, [])
  | (ev, t) :: evs =>
    let r := batch_processor_step cfg writeOk s ev t
    let rest := batch_processor_run cfg writeOk r.1 evs
    (rest.1, r.2.toList ++ rest.2)

/-- A drain schedule for a queue snapshot: dequeue every queued point at
time t0, then observe one queue-get timeout at time
t0 + batch_timeout + 1, which is late enough to trigger a time-based
flush of any remainder. -/
def drainSchedule (cfg : PipelineConfig) (queue : List MarketDataPoint)
    (t0 : ℚ) : List (Option MarketDataPoint × ℚ) :=
  queue.map (fun q => (some q, t0)) ++ [(none, t0 + cfg.batch_timeout + 1)]

/-- Concrete configuration used by the witnesses: batch size 100, batch
timeout 1 second, both external sinks disabled, as in DEFAULT_CONFIG. -/
def cfgW : PipelineConfig := ⟨100, 1, false, false⟩

/-- Concrete configuration with a small batch size and the storage sink
enabled, for exercising the batch processor. -/
def cfgB : PipelineConfig := ⟨2, 1, false, true⟩

/-- Concrete timezone-aware datetime: 2024-01-02T03:04:05.000006+05:30. -/
def dtW : PyDatetime := ⟨2024, 1, 2, 3, 4, 5, 6, some 330⟩

/-- Concrete invalid data point (price 0). -/
def pBad : MarketDataPoint :=
  ⟨"AAPL", some dtW, 0, 5, none, none, "test", "price", none⟩

/-- Concrete valid data point with a timestamp present. -/
def pGood : MarketDataPoint :=
  ⟨"AAPL", some dtW, 100, 10, none, none, "test", "price", none⟩

/-- Concrete valid data point with no timestamp, exercising the in-place
stamping branch of ingest_data_point. -/
def pNoTs : MarketDataPoint :=
  ⟨"AAPL", none, 100, 10, none, none, "test", "price", none⟩

/-- Concrete invalid data point (price 0) with no timestamp, exercising
the rejection path on a timestamp-less point. -/
def pBadNoTs : MarketDataPoint :=
  ⟨"AAPL", none, 0, 5, none, none, "test", "price", none⟩

/-- Eleven consecutive valid ingest calls at the stable price 100. -/
def warmupInputs : List (MarketDataPoint × PyDatetime × ℚ) :=
  List.replicate 11 (pGood, dtW, 0)

/-- The pipeline state reached after the eleven warm-up ingests. -/
def stWarm : PipelineState := ingestList cfgW initPipeline warmupInputs

/-- Concrete data point at twice the stable mean of the warm-up prices. -/
def pSpike : MarketDataPoint :=
  ⟨"AAPL", some dtW, 200, 10, none, none, "test", "price", none⟩

/-- Concrete pipeline state for the metrics computation: started at time
0 with one processed point. -/
def stMetrics : PipelineState :=
  { initPipeline with start_time := some 0, total_processed := 1 }

/-- Concrete storage state with an initialized pool and no committed
rows. -/
def storW : StorageState := ⟨true, []⟩

/-- Write oracle under which every storage write fails. -/
def alwaysFail : List MarketDataPoint → Bool := fun _ => false

/-- Concrete batch processor state holding one pending point. -/
def sBatch : BatchProcState := ⟨[pGood], 0, storW, none⟩

/-- Concrete batch processor state with an empty batch. -/
def sEmpty : BatchProcState := ⟨[], 0, storW, none⟩

/-- Every price retained in the validator history is strictly positive.
This invariant holds for every reachable validator state, because prices
are appended only after the price check passes. -/
def ValidatorState.allPos (v : ValidatorState) : Prop :=
  ∀ pr ∈ v.price_history, ∀ q ∈ pr.2, 0 < q

instance (v : ValidatorState) : Decidable v.allPos := by
  unfold ValidatorState.allPos
  infer_instance

/-- The character for a decimal digit. -/
def digitChar (n : Nat) : Char := Char.ofNat (48 + n)

/-- Two-digit zero-padded decimal rendering. -/
def pad2 (n : Nat) : List Char := [digitChar (n / 10 % 10), digitChar (n % 10)]

/-- Four-digit zero-padded decimal rendering. -/
def pad4 (n : Nat) : List Char :=
  [digitChar (n / 1000 % 10), digitChar (n / 100 % 10),
   digitChar (n / 10 % 10), digitChar (n % 10)]

/-- Six-digit zero-padded decimal rendering. -/
def pad6 (n : Nat) : List Char :=
  [digitChar (n / 100000 % 10), digitChar (n / 10000 % 10),
   digitChar (n / 1000 % 10), digitChar (n / 100 % 10),
   digitChar (n / 10 % 10), digitChar (n % 10)]

/-- The UTC-offset suffix +HH:MM or -HH:MM of an aware datetime. -/
def tzChars (off : Int) : List Char :=
  (if 0 ≤ off then '+' else '-')
    :: (pad2 (off.natAbs / 60) ++ ':' :: pad2 (off.natAbs % 60))

/-- Model of datetime.isoformat as called by MarketDataPoint.to_dict:
YYYY-MM-DDTHH:MM:SS, with a .ffffff fraction only when the microsecond
field is nonzero, and a +HH:MM or -HH:MM suffix only for an aware
datetime. The value is the character sequence of the returned string. -/
def isoformat (d : PyDatetime) : List Char :=
  pad4 d.year ++ '-' :: pad2 d.month ++ '-' :: pad2 d.day
    ++ 'T' :: pad2 d.hour ++ ':' :: pad2 d.minute ++ ':' :: pad2 d.second
    ++ (if d.microsecond = 0 then [] else '.' :: pad6 d.microsecond)
    ++ (match d.tzOffset with | none => [] | some off => tzChars off)

/-- Reading one decimal digit. -/
def parseDigit (c : Char) : Option Nat :=
  if 48 ≤ c.toNat ∧ c.toNat ≤ 57 then some (c.toNat - 48) else none

/-- Reading exactly two decimal digits. -/
def parse2 : List Char → Option (Nat × List Char)
  | a :: b :: rest =>
    match parseDigit a, parseDigit b with
    | some x, some y => some (10 * x + y, rest)
    | _, _ => none
  | _ => none

/-- Reading exactly four decimal digits. -/
def parse4 : List Char → Option (Nat × List Char)
  | a :: b :: c :: d :: rest =>
    match parseDigit a, parseDigit b, parseDigit c, parseDigit d with
    | some x, some y, some z, some w => some (1000 * x + 100 * y + 10 * z + w, rest)
    | _, _, _, _ => none
  | _ => none

/-- Reading exactly six decimal digits. -/
def parse6 : List Char → Option (Nat × List Char)
  | a :: b :: c :: d :: e :: f :: rest =>
    match parseDigit a, parseDigit b, parseDigit c,
        parseDigit d, parseDigit e, parseDigit f with
    | some u, some v, some w, some x, some y, some z =>
      some (100000 * u + 10000 * v + 1000 * w + 100 * x + 10 * y + z, rest)
    | _, _, _, _, _, _ => none
  | _ => none

/-- Consuming one expected character. -/
def expectChar (c : Char) : List Char → Option (List Char)
  | x :: rest => if x = c then some rest else none
  | [] => none

/-- Reading the optional .ffffff fractional part; absent means zero
microseconds. -/
def parseMicro : List Char → Option (Nat × List Char)
  | '.' :: rest => parse6 rest
  | s => some (0, s)

/-- Reading the optional trailing UTC offset; an empty remainder means a
naive datetime. -/
def parseTz : List Char → Option (Option Int)
  | [] => some none
  | c :: rest =>
    if c = '+' ∨ c = '-' then
      match parse2 rest with
      | some (h, rest1) =>
        match expectChar ':' rest1 with
        | some rest2 =>
          match parse2 rest2 with
          | some (m, []) =>
            some (some (if c = '+' then (h * 60 + m : Int) else -(h * 60 + m : Int)))
          | _ => none
        | none => none
      | none => none
    else none

/-- Model of datetime.fromisoformat as called by
MarketDataPoint.from_dict, on the grammar produced by isoformat: date,
an optional separator plus time with optional fraction, and an optional
UTC offset. A parse failure models the ValueError the constructor would
raise. -/
def fromisoformat (s : List Char) : Option PyDatetime := do
  let (y, s) ← parse4 s
  let s ← expectChar '-' s
  let (mo, s) ← parse2 s
  let s ← expectChar '-' s
  let (d, s) ← parse2 s
  match s with
  | [] => pure ⟨y, mo, d, 0, 0, 0, 0, none⟩
  | _sep :: s => do
    let (h, s) ← parse2 s
    let s ← expectChar ':' s
    let (mi, s) ← parse2 s
    let s ← expectChar ':' s
    let (sec, s) ← parse2 s
    let (micro, s) ← parseMicro s
    let tz ← parseTz s
    pure ⟨y, mo, d, h, mi, sec, micro, tz⟩

/-- The serialized timestamp slot of the dictionary: to_dict always
writes a string, but from_dict also accepts an unconverted datetime. -/
inductive TsValue where
  | str (s : List Char)
  | dt (d : PyDatetime)
deriving DecidableEq, Repr

/-- The dictionary produced by MarketDataPoint.to_dict and consumed by
MarketDataPoint.from_dict: all dataclass fields, with the timestamp slot
holding either the serialized string or a datetime. -/
structure MarketDataDict where
  symbol : String
  timestamp : TsValue
  price : ℚ
  volume : ℤ
  bid : Option ℚ
  ask : Option ℚ
  source : String
  data_type : String
  metadata : Option (List (String × String))
deriving DecidableEq, Repr

/-- Embedding of MarketDataPoint.to_dict: asdict copies every field and
the timestamp is replaced by its isoformat string. A missing timestamp
models the AttributeError None.isoformat() would raise. -/
def to_dict (p : MarketDataPoint) : Option MarketDataDict :=
  match p.timestamp with
  | none => none
  | some d =>
    some ⟨p.symbol, TsValue.str (isoformat d), p.price, p.volume, p.bid, p.ask,
      p.source, p.data_type, p.metadata⟩

/-- Embedding of MarketDataPoint.from_dict: a string timestamp is parsed
with fromisoformat (none models the ValueError on a malformed string), a
datetime timestamp is taken as is, and every other field is passed
through to the dataclass constructor. -/
def from_dict (data : MarketDataDict) : Option MarketDataPoint :=
  match data.timestamp with
  | TsValue.str s =>
    match fromisoformat s with
    | some d =>
      some ⟨data.symbol, some d, data.price, data.volume, data.bid, data.ask,
        data.source, data.data_type, data.metadata⟩
    | none => none
  | TsValue.dt d =>
    some ⟨data.symbol, some d, data.price, data.volume, data.bid, data.ask,
      data.source, data.data_type, data.metadata⟩

/-- The field ranges of a constructible Python datetime: year 1..9999,
month 1..12, day 1..31, time fields in range, microseconds below one
million, and a UTC offset strictly between -24 and +24 hours. -/
def PyDatetime.valid (d : PyDatetime) : Prop :=
  1 ≤ d.year ∧ d.year ≤ 9999 ∧ 1 ≤ d.month ∧ d.month ≤ 12 ∧
  1 ≤ d.day ∧ d.day ≤ 31 ∧ d.hour ≤ 23 ∧ d.minute ≤ 59 ∧
  d.second ≤ 59 ∧ d.microsecond ≤ 999999 ∧
  ∀ off ∈ d.tzOffset, off.natAbs ≤ 1439

instance (d : PyDatetime) : Decidable d.valid := by
  unfold PyDatetime.valid
  infer_instance

end DataPipeline

namespace DataPipeline

/-- Helper: rejection by the validator is decided before the history is
touched, so both reject branches return the accepted flag false. -/
theorem validate_rejects_of_invalid (st : ValidatorState) (p : MarketDataPoint)
    (h : p.price ≤ 0 ∨ p.volume < 0) :
    (validate_price_data st p).accepted = false := by
  unfold validate_price_data
  by_cases hp : p.price ≤ 0
  · rw [if_pos hp]
  · rcases h with h | h
    · exact absurd h hp
    · rw [if_neg hp, if_pos h]

/-- C1: for every data point with price at most 0 or negative volume,
ingest_data_point returns false, increments rejected_points by exactly
1, and leaves valid_points unchanged; the embedding is a total function,
mirroring the except handler that lets no exception reach the caller. -/
theorem C1_ingest_rejects_invalid_point (cfg : PipelineConfig)
    (st : PipelineState) (p : MarketDataPoint) (now : PyDatetime) (lat : ℚ)
    (h : p.price ≤ 0 ∨ p.volume < 0) :
    (ingest_data_point cfg st p now lat).result = false ∧
    (ingest_data_point cfg st p now lat).state.rejected_points
      = st.rejected_points + 1 ∧
    (ingest_data_point cfg st p now lat).state.valid_points
      = st.valid_points := by
  have hacc := validate_rejects_of_invalid st.validator p h
  simp [ingest_data_point, hacc]

/-- Witness for C1 at a concrete zero-priced point on a fresh
pipeline. -/
theorem C1_witness :
    (pBad.price ≤ 0 ∨ pBad.volume < 0) ∧
    (ingest_data_point cfgW initPipeline pBad dtW 0).result = false ∧
    (ingest_data_point cfgW initPipeline pBad dtW 0).state.rejected_points
      = initPipeline.rejected_points + 1 ∧
    (ingest_data_point cfgW initPipeline pBad dtW 0).state.valid_points
      = initPipeline.valid_points :=
  ⟨Or.inl (by decide),
    C1_ingest_rejects_invalid_point cfgW initPipeline pBad dtW 0 (Or.inl (by decide))⟩

/-- C8: calling start twice in a row leaves the pipeline in exactly the
state one call produces, and stop on a pipeline that is not running is
the identity. -/
theorem C8_start_stop_idempotent (st : PipelineState) (t1 t2 : ℚ) :
    start (start st t1) t2 = start st t1 ∧
    (st.running = false → stop st = st) := by
  constructor
  · by_cases h : st.running <;> simp [start, h]
  · intro h
    simp [stop, h]

/-- Witness for C8 at a fresh pipeline. -/
theorem C8_witness :
    start (start initPipeline 0) 1 = start initPipeline 0 ∧
    stop initPipeline = initPipeline :=
  ⟨(C8_start_stop_idempotent initPipeline 0 1).1,
    (C8_start_stop_idempotent initPipeline 0 1).2 rfl⟩

/-- Helper: one ingest call preserves equality of the total_processed
and valid_points counters, since both are incremented together on
acceptance and neither moves on rejection. -/
theorem ingest_preserves_counter_eq (cfg : PipelineConfig)
    (st : PipelineState) (p : MarketDataPoint) (now : PyDatetime) (lat : ℚ)
    (h : st.total_processed = st.valid_points) :
    (ingest_data_point cfg st p now lat).state.total_processed
      = (ingest_data_point cfg st p now lat).state.valid_points := by
  by_cases hacc : (validate_price_data st.validator p).accepted <;>
    simp [ingest_data_point, hacc, h]

/-- C9: after any sequence of ingest calls on a fresh pipeline the
total_processed counter equals valid_points: rejected points are never
counted in total_processed. -/
theorem C9_total_processed_eq_valid_points (cfg : PipelineConfig)
    (inps : List (MarketDataPoint × PyDatetime × ℚ)) :
    (ingestList cfg initPipeline inps).total_processed
      = (ingestList cfg initPipeline inps).valid_points := by
  have key : ∀ (l : List (MarketDataPoint × PyDatetime × ℚ))
      (st : PipelineState), st.total_processed = st.valid_points →
      (ingestList cfg st l).total_processed = (ingestList cfg st l).valid_points := by
    intro l
    induction l with
    | nil => intro st h; exact h
    | cons a rest ih =>
      intro st h
      obtain ⟨p, now, lat⟩ := a
      exact ih _ (ingest_preserves_counter_eq cfg st p now lat h)
  exact key inps initPipeline rfl

end DataPipeline

namespace DataPipeline

/-- Helper: one batch-processor iteration conserves points: the flushed
batch (if any) followed by the remaining batch is exactly the old batch
followed by the dequeued point. -/
theorem batch_processor_step_conserves (cfg : PipelineConfig)
    (writeOk : List MarketDataPoint → Bool) (s : BatchProcState)
    (ev : Option MarketDataPoint) (now : ℚ) :
    ((batch_processor_step cfg writeOk s ev now).2.toList.flatten)
        ++ (batch_processor_step cfg writeOk s ev now).1.batch
      = s.batch ++ ev.toList := by
  simp only [batch_processor_step]
  split <;> simp

/-- Helper: a batch-processor run conserves points: the concatenation of
all flushed batches followed by the final pending batch equals the
initial pending batch followed by all dequeued points, in order. No
point is lost, duplicated, or resubmitted. -/
theorem batch_processor_run_conserves (cfg : PipelineConfig)
    (writeOk : List MarketDataPoint → Bool)
    (evs : List (Option MarketDataPoint × ℚ)) :
    ∀ s : BatchProcState,
      ((batch_processor_run cfg writeOk s evs).2).flatten
          ++ (batch_processor_run cfg writeOk s evs).1.batch
        = s.batch ++ evs.filterMap Prod.fst := by
  induction evs with
  | nil => intro s; simp [batch_processor_run]
  | cons e rest ih =>
    intro s
    obtain ⟨ev, t⟩ := e
    have hstep := batch_processor_step_conserves cfg writeOk s ev t
    have hrest := ih (batch_processor_step cfg writeOk s ev t).1
    simp only [batch_processor_run, List.flatten_append, List.append_assoc] at *
    rw [hrest, ← List.append_assoc, hstep, List.append_assoc]
    cases ev <;> simp [List.filterMap_cons]

/-- Helper: splitting a batch-processor run at a schedule boundary. -/
theorem batch_processor_run_append (cfg : PipelineConfig)
    (writeOk : List MarketDataPoint → Bool)
    (a b : List (Option MarketDataPoint × ℚ)) :
    ∀ s : BatchProcState,
      batch_processor_run cfg writeOk s (a ++ b)
        = ((batch_processor_run cfg writeOk
              (batch_processor_run cfg writeOk s a).1 b).1,
           (batch_processor_run cfg writeOk s a).2
             ++ (batch_processor_run cfg writeOk
                  (batch_processor_run cfg writeOk s a).1 b).2) := by
  induction a with
  | nil => intro s; simp [batch_processor_run]
  | cons e rest ih =>
    intro s
    obtain ⟨ev, t⟩ := e
    simp [batch_processor_run, ih]

/-- Helper: a flush resets last_flush to the iteration time, otherwise
last_flush is unchanged. -/
theorem batch_processor_step_last_flush (cfg : PipelineConfig)
    (writeOk : List MarketDataPoint → Bool) (s : BatchProcState)
    (ev : Option MarketDataPoint) (now : ℚ) :
    (batch_processor_step cfg writeOk s ev now).1.last_flush = now ∨
    (batch_processor_step cfg writeOk s ev now).1.last_flush = s.last_flush := by
  simp only [batch_processor_step]
  split
  · exact Or.inl rfl
  · exact Or.inr rfl

/-- Helper: running over events all observed at time t0, starting from
last_flush = t0, keeps last_flush = t0. -/
theorem batch_processor_run_last_flush_const (cfg : PipelineConfig)
    (writeOk : List MarketDataPoint → Bool) (queue : List MarketDataPoint)
    (t0 : ℚ) :
    ∀ s : BatchProcState, s.last_flush = t0 →
      (batch_processor_run cfg writeOk s
        (queue.map (fun q => (some q, t0)))).1.last_flush = t0 := by
  induction queue with
  | nil => intro s h; simpa [batch_processor_run] using h
  | cons q rest ih =>
    intro s h
    simp only [List.map_cons, batch_processor_run]
    apply ih
    rcases batch_processor_step_last_flush cfg writeOk s (some q) t0 with h2 | h2
    · exact h2
    · rw [h2, h]

/-- Helper: a queue-get timeout observed at least batch_timeout after
the last flush leaves the processor with an empty batch: a nonempty
batch is flushed by the time condition, an empty batch stays empty. -/
theorem batch_processor_step_timeout_empties (cfg : PipelineConfig)
    (writeOk : List MarketDataPoint → Bool) (s : BatchProcState) (t : ℚ)
    (h : cfg.batch_timeout ≤ t - s.last_flush) :
    (batch_processor_step cfg writeOk s none t).1.batch = [] := by
  simp only [batch_processor_step]
  split
  · rfl
  · rename_i hcond
    by_cases hb : s.batch = []
    · simpa using hb
    · exfalso
      apply hcond
      simp [should_flush, hb, h]

/-- Helper: dequeue events carry exactly the queued points. -/
theorem filterMap_fst_map_some (queue : List MarketDataPoint) (t0 : ℚ) :
    List.filterMap Prod.fst
        (queue.map (fun q => ((some q : Option MarketDataPoint), t0)))
      = queue := by
  induction queue with
  | nil => rfl
  | cons q rest ih => simp [List.filterMap_cons, ih]

/-- Helper: draining a queue snapshot from an empty batch flushes every
queued point: the concatenation of the flushed batches is exactly the
queue. -/
theorem drain_flushes_queue (cfg : PipelineConfig)
    (writeOk : List MarketDataPoint → Bool) (stor : StorageState)
    (lbt : Option ℚ) (queue : List MarketDataPoint) (t0 : ℚ) :
    ((batch_processor_run cfg writeOk ⟨[], t0, stor, lbt⟩
        (drainSchedule cfg queue t0)).2).flatten = queue := by
  have hcons := batch_processor_run_conserves cfg writeOk
    (drainSchedule cfg queue t0) ⟨[], t0, stor, lbt⟩
  have hfinal : (batch_processor_run cfg writeOk ⟨[], t0, stor, lbt⟩
      (drainSchedule cfg queue t0)).1.batch = [] := by
    unfold drainSchedule
    rw [batch_processor_run_append]
    have hlf := batch_processor_run_last_flush_const cfg writeOk queue t0
      ⟨[], t0, stor, lbt⟩ rfl
    simp only [batch_processor_run]
    apply batch_processor_step_timeout_empties
    rw [hlf]
    linarith
  rw [hfinal, List.append_nil] at hcons
  rw [hcons]
  unfold drainSchedule
  rw [List.filterMap_append, filterMap_fst_map_some]
  simp [List.filterMap_cons]

/-- Helper: all prices found in an all-positive history are positive. -/
theorem histFind_pos (v : ValidatorState) (sym : String)
    (hall : v.allPos) : ∀ q ∈ histFind v.price_history sym, 0 < q := by
  have : ∀ l : List (String × List ℚ),
      (∀ pr ∈ l, ∀ q ∈ pr.2, 0 < q) → ∀ q ∈ histFind l sym, 0 < q := by
    intro l
    induction l with
    | nil => intro _ q hq; simp [histFind] at hq
    | cons a rest ih =>
      intro h q hq
      obtain ⟨s, ps⟩ := a
      by_cases hs : s = sym
      · rw [histFind, if_pos hs] at hq
        exact h (s, ps) (List.mem_cons_self _ _) q hq
      · rw [histFind, if_neg hs] at hq
        exact ih (fun pr hpr => h pr (List.mem_cons_of_mem _ hpr)) q hq
  exact this v.price_history hall

/-- Helper: a point with positive price and non-negative volume passes
validation whenever the history contains only positive prices (as every
reachable history does): the mean of the last 10 prices is then
positive, so the zero-mean rejection branch is unreachable. -/
theorem validate_accepts_valid (v : ValidatorState) (p : MarketDataPoint)
    (hp : 0 < p.price) (hv : 0 ≤ p.volume) (hall : v.allPos) :
    (validate_price_data v p).accepted = true := by
  have h1 : ¬p.price ≤ 0 := not_le.mpr hp
  have h2 : ¬p.volume < 0 := not_lt.mpr hv
  unfold validate_price_data
  rw [if_neg h1, if_neg h2]
  by_cases hlen : 10 < (histFind v.price_history p.symbol).length
  · have hpos : 0 < recent_avg v p.symbol := by
      unfold recent_avg lastTen
      have hsub : ∀ q ∈ (histFind v.price_history p.symbol).drop
          ((histFind v.price_history p.symbol).length - 10), 0 < q :=
        fun q hq => histFind_pos v p.symbol hall q (List.drop_subset _ _ hq)
      have hlen2 : ((histFind v.price_history p.symbol).drop
          ((histFind v.price_history p.symbol).length - 10)).length = 10 := by
        rw [List.length_drop]
        omega
      have hne : (histFind v.price_history p.symbol).drop
          ((histFind v.price_history p.symbol).length - 10) ≠ [] := by
        intro hnil
        rw [hnil] at hlen2
        simp at hlen2
      have hsum := List.sum_pos _ hsub hne
      simp only [hlen2]
      exact div_pos hsum (by norm_num)
    have hne0 : ¬recent_avg v p.symbol = 0 := ne_of_gt hpos
    simp [hlen, hne0]
  · simp [hlen]

/-- C2: for every data point with positive price and non-negative
volume, on any pipeline whose validator history is all-positive (true of
every reachable state), ingest_data_point returns true, increments
valid_points by exactly 1, and appends the point to the bounded data
queue; draining that queue through the batch processor flushes the point
inside one of the emitted batches. -/
theorem C2_ingest_accepts_valid_point (cfg : PipelineConfig)
    (st : PipelineState) (p : MarketDataPoint) (now : PyDatetime) (lat : ℚ)
    (hp : 0 < p.price) (hv : 0 ≤ p.volume) (hall : st.validator.allPos) :
    (ingest_data_point cfg st p now lat).result = true ∧
    (ingest_data_point cfg st p now lat).state.valid_points
      = st.valid_points + 1 ∧
    (ingest_data_point cfg st p now lat).state.data_queue
      = st.data_queue ++ [(ingest_data_point cfg st p now lat).point] ∧
    ∀ (writeOk : List MarketDataPoint → Bool) (stor : StorageState)
      (lbt : Option ℚ) (t0 : ℚ),
      (ingest_data_point cfg st p now lat).point ∈
        ((batch_processor_run cfg writeOk ⟨[], t0, stor, lbt⟩
          (drainSchedule cfg
            ((ingest_data_point cfg st p now lat).state.data_queue) t0)).2).flatten := by
  have hacc := validate_accepts_valid st.validator p hp hv hall
  refine ⟨by simp [ingest_data_point, hacc], by simp [ingest_data_point, hacc],
    by simp [ingest_data_point, hacc], ?_⟩
  intro writeOk stor lbt t0
  rw [drain_flushes_queue]
  have hq : (ingest_data_point cfg st p now lat).state.data_queue
      = st.data_queue ++ [(ingest_data_point cfg st p now lat).point] := by
    simp [ingest_data_point, hacc]
  rw [hq]
  simp

/-- Witness for C2: a valid point on a fresh pipeline is accepted,
counted, enqueued, and appears in a flushed batch of the drain run. -/
theorem C2_witness :
    (ingest_data_point cfgW initPipeline pGood dtW 0).result = true ∧
    (ingest_data_point cfgW initPipeline pGood dtW 0).state.valid_points
      = initPipeline.valid_points + 1 ∧
    (ingest_data_point cfgW initPipeline pGood dtW 0).state.data_queue
      = initPipeline.data_queue
          ++ [(ingest_data_point cfgW initPipeline pGood dtW 0).point] ∧
    (ingest_data_point cfgW initPipeline pGood dtW 0).point ∈
      ((batch_processor_run cfgW alwaysFail ⟨[], 0, storW, none⟩
        (drainSchedule cfgW
          ((ingest_data_point cfgW initPipeline pGood dtW 0).state.data_queue)
          0)).2).flatten := by
  have h := C2_ingest_accepts_valid_point cfgW initPipeline pGood dtW 0
    (by decide) (by decide) (by decide)
  exact ⟨h.1, h.2.1, h.2.2.1, h.2.2.2 alwaysFail storW none 0⟩

end DataPipeline

namespace DataPipeline

/-- C3: when the symbol already has more than 10 retained prices and the
new price deviates from the mean of the 10 most recent ones by more than
50 percent in absolute relative terms, validation flags the anomaly yet
accepts the point, and ingest_data_point returns true. -/
theorem C3_anomaly_flagged_but_accepted (cfg : PipelineConfig)
    (st : PipelineState) (p : MarketDataPoint) (now : PyDatetime) (lat : ℚ)
    (hp : 0 < p.price) (hv : 0 ≤ p.volume)
    (hlen : 10 < (histFind st.validator.price_history p.symbol).length)
    (hdev : (1 : ℚ)/2 <
      |p.price - recent_avg st.validator p.symbol|
        / recent_avg st.validator p.symbol) :
    (validate_price_data st.validator p).accepted = true ∧
    (validate_price_data st.validator p).anomaly_flag = true ∧
    (ingest_data_point cfg st p now lat).result = true := by
  have h1 : ¬p.price ≤ 0 := not_le.mpr hp
  have h2 : ¬p.volume < 0 := not_lt.mpr hv
  have havg : ¬recent_avg st.validator p.symbol = 0 := by
    intro h0
    rw [h0, div_zero] at hdev
    exact absurd hdev (by norm_num)
  have hacc : (validate_price_data st.validator p).accepted = true ∧
      (validate_price_data st.validator p).anomaly_flag = true := by
    unfold validate_price_data
    rw [if_neg h1, if_neg h2]
    refine ⟨by simp [hlen, havg], ?_⟩
    simp [hlen, havg, decide_eq_true_eq]
    linarith
  exact ⟨hacc.1, hacc.2, by simp [ingest_data_point, hacc.1]⟩

/-- Witness for C3: after 11 accepted prices at the stable value 100, a
point at 200 (twice the recent mean) is flagged as an anomaly and is
still accepted. -/
theorem C3_witness :
    0 < pSpike.price ∧ 0 ≤ pSpike.volume ∧
    10 < (histFind stWarm.validator.price_history pSpike.symbol).length ∧
    ((1 : ℚ)/2 <
      |pSpike.price - recent_avg stWarm.validator pSpike.symbol|
        / recent_avg stWarm.validator pSpike.symbol) ∧
    (validate_price_data stWarm.validator pSpike).accepted = true ∧
    (validate_price_data stWarm.validator pSpike).anomaly_flag = true ∧
    (ingest_data_point cfgW stWarm pSpike dtW 0).result = true := by
  have hv : stWarm.validator =
      ⟨[("AAPL", [100, 100, 100, 100, 100, 100, 100, 100, 100, 100, 100])]⟩ := by
    decide
  have havg : recent_avg stWarm.validator pSpike.symbol = 100 := by
    rw [hv]
    norm_num [recent_avg, histFind, lastTen, pSpike]
  have hdev : (1 : ℚ)/2 <
      |pSpike.price - recent_avg stWarm.validator pSpike.symbol|
        / recent_avg stWarm.validator pSpike.symbol := by
    have h1 : pSpike.price - (100 : ℚ) = 100 := by norm_num [pSpike]
    rw [havg, h1, abs_of_nonneg (by norm_num : (0 : ℚ) ≤ 100)]
    norm_num
  have h := C3_anomaly_flagged_but_accepted cfgW stWarm pSpike dtW 0
    (by decide) (by decide) (by decide) hdev
  exact ⟨by decide, by decide, by decide, hdev, h.1, h.2.1, h.2.2⟩

/-- C4: in one batch-processor iteration with a positive configured
batch size and the loop invariant that the pending batch is below the
size bound, a flush happens exactly when the batch (after the optional
dequeue) has reached batch_size or is non-empty with at least
batch_timeout elapsed since the last flush; every flushed batch has at
most batch_size points; a flush clears the batch and resets the flush
timer to the current time for every storage outcome (the statement
quantifies over the write oracle); and the size invariant is
preserved. -/
theorem C4_batch_flush_exact (cfg : PipelineConfig)
    (writeOk : List MarketDataPoint → Bool) (s : BatchProcState)
    (ev : Option MarketDataPoint) (now : ℚ)
    (hbs : 1 ≤ cfg.batch_size) (hlen : s.batch.length < cfg.batch_size) :
    ((batch_processor_step cfg writeOk s ev now).2 ≠ none ↔
      (cfg.batch_size ≤ (s.batch ++ ev.toList).length ∨
        (s.batch ++ ev.toList ≠ [] ∧ cfg.batch_timeout ≤ now - s.last_flush))) ∧
    (∀ fl, (batch_processor_step cfg writeOk s ev now).2 = some fl →
      fl.length ≤ cfg.batch_size) ∧
    ((batch_processor_step cfg writeOk s ev now).2 ≠ none →
      (batch_processor_step cfg writeOk s ev now).1.batch = [] ∧
      (batch_processor_step cfg writeOk s ev now).1.last_flush = now) ∧
    (batch_processor_step cfg writeOk s ev now).1.batch.length < cfg.batch_size := by
  have hev : ev.toList.length ≤ 1 := by cases ev <;> simp
  have hcond :
      (should_flush cfg (s.batch ++ ev.toList) now s.last_flush
          && decide (s.batch ++ ev.toList ≠ [])) = true ↔
        (cfg.batch_size ≤ (s.batch ++ ev.toList).length ∨
          (s.batch ++ ev.toList ≠ [] ∧ cfg.batch_timeout ≤ now - s.last_flush)) := by
    simp only [should_flush, Bool.and_eq_true, Bool.or_eq_true, decide_eq_true_eq]
    constructor
    · rintro ⟨h1 | ⟨h1, h2⟩, _⟩
      · exact Or.inl h1
      · exact Or.inr ⟨h1, h2⟩
    · intro h
      refine ⟨?_, ?_⟩
      · rcases h with h | h
        · exact Or.inl h
        · exact Or.inr ⟨h.1, h.2⟩
      · rcases h with h | h
        · intro hnil
          rw [hnil] at h
          simp at h
          omega
        · exact h.1
  by_cases hb :
      (should_flush cfg (s.batch ++ ev.toList) now s.last_flush
        && decide (s.batch ++ ev.toList ≠ [])) = true
  · have hstep : batch_processor_step cfg writeOk s ev now
        = (⟨[], now, flushStorage cfg writeOk s.storage (s.batch ++ ev.toList),
            some now⟩, some (s.batch ++ ev.toList)) := by
      simp only [batch_processor_step]
      rw [if_pos hb]
    rw [hstep]
    refine ⟨⟨fun _ => hcond.mp hb, fun _ => by simp⟩, ?_, fun _ => ⟨rfl, rfl⟩, ?_⟩
    · intro fl hfl
      have hfl2 : s.batch ++ ev.toList = fl := by simpa using hfl
      rw [← hfl2, List.length_append]
      omega
    · simpa using hbs
  · have hstep : batch_processor_step cfg writeOk s ev now
        = (⟨s.batch ++ ev.toList, s.last_flush, s.storage, s.last_batch_time⟩,
           none) := by
      simp only [batch_processor_step]
      rw [if_neg hb]
    rw [hstep]
    refine ⟨⟨fun h => absurd rfl h, fun h => absurd (hcond.mpr h) hb⟩,
      ?_, fun h => absurd rfl h, ?_⟩
    · intro fl hfl
      exact absurd hfl (by simp)
    · by_cases hne : s.batch ++ ev.toList = []
      · have : (s.batch ++ ev.toList).length = 0 := by rw [hne]; rfl
        show (s.batch ++ ev.toList).length < cfg.batch_size
        omega
      · have hnot : ¬(cfg.batch_size ≤ (s.batch ++ ev.toList).length ∨
            (s.batch ++ ev.toList ≠ [] ∧ cfg.batch_timeout ≤ now - s.last_flush)) :=
          fun h => hb (hcond.mpr h)
      
        rcases not_or.mp hnot with ⟨hA, _⟩
        show (s.batch ++ ev.toList).length < cfg.batch_size
        omega

/-- Witness for C4 at a one-point batch flushed by the timeout path. -/
theorem C4_witness :
    1 ≤ cfgB.batch_size ∧
    sEmpty.batch.length < cfgB.batch_size ∧
    ((batch_processor_step cfgB alwaysFail sEmpty (some pGood) 2).2 ≠ none ↔
      (cfgB.batch_size ≤ (sEmpty.batch ++ (some pGood).toList).length ∨
        (sEmpty.batch ++ (some pGood).toList ≠ [] ∧
          cfgB.batch_timeout ≤ 2 - sEmpty.last_flush))) ∧
    (batch_processor_step cfgB alwaysFail sEmpty (some pGood) 2).1.batch.length
      < cfgB.batch_size :=
  ⟨by decide, by decide,
    (C4_batch_flush_exact cfgB alwaysFail sEmpty (some pGood) 2
      (by decide) (by decide)).1,
    (C4_batch_flush_exact cfgB alwaysFail sEmpty (some pGood) 2
      (by decide) (by decide)).2.2.2⟩

/-- C5: when the write fails, store_batch returns false and commits no
row; the batch processor clears a flushed batch whose write failed
without changing the committed rows (no retry); and over any run the
flushed batches plus the pending batch are exactly the initial batch
plus the dequeued points, so no batch is ever resubmitted. -/
theorem C5_store_batch_failure_discards (writeOk : List MarketDataPoint → Bool)
    (st : StorageState) (pts : List MarketDataPoint)
    (h : writeOk pts = false) :
    (store_batch writeOk st pts).1 = false ∧
    (store_batch writeOk st pts).2.committed = st.committed ∧
    (∀ (cfg : PipelineConfig) (s : BatchProcState)
        (ev : Option MarketDataPoint) (now : ℚ),
      (batch_processor_step cfg writeOk s ev now).2 = some pts →
        (batch_processor_step cfg writeOk s ev now).1.batch = [] ∧
        (batch_processor_step cfg writeOk s ev now).1.storage.committed
          = s.storage.committed) ∧
    (∀ (cfg : PipelineConfig) (s : BatchProcState)
        (evs : List (Option MarketDataPoint × ℚ)),
      ((batch_processor_run cfg writeOk s evs).2).flatten
          ++ (batch_processor_run cfg writeOk s evs).1.batch
        = s.batch ++ evs.filterMap Prod.fst) := by
  have hsb : ∀ st2 : StorageState, (store_batch writeOk st2 pts).1 = false ∧
      (store_batch writeOk st2 pts).2.committed = st2.committed := by
    intro st2
    unfold store_batch
    by_cases h0 : st2.pool = false ∨ pts = []
    · rw [if_pos h0]
      exact ⟨rfl, rfl⟩
    · rw [if_neg h0]
      constructor <;> simp [h]
  refine ⟨(hsb st).1, (hsb st).2, ?_, ?_⟩
  · intro cfg s ev now hfl
    by_cases hb :
        (should_flush cfg (s.batch ++ ev.toList) now s.last_flush
          && decide (s.batch ++ ev.toList ≠ [])) = true
    · have hstep : batch_processor_step cfg writeOk s ev now
          = (⟨[], now, flushStorage cfg writeOk s.storage (s.batch ++ ev.toList),
              some now⟩, some (s.batch ++ ev.toList)) := by
        simp only [batch_processor_step]
        rw [if_pos hb]
      rw [hstep] at hfl ⊢
      have hpts : s.batch ++ ev.toList = pts := by simpa using hfl
      refine ⟨rfl, ?_⟩
      show (flushStorage cfg writeOk s.storage (s.batch ++ ev.toList)).committed
        = s.storage.committed
      unfold flushStorage
      by_cases hpg : cfg.postgresql_enabled = true
      · rw [if_pos hpg, hpts]
        exact (hsb s.storage).2
      · rw [if_neg hpg]
    · have hstep : batch_processor_step cfg writeOk s ev now
          = (⟨s.batch ++ ev.toList, s.last_flush, s.storage, s.last_batch_time⟩,
             none) := by
        simp only [batch_processor_step]
        rw [if_neg hb]
      rw [hstep] at hfl
      exact absurd hfl (by simp)
  · intro cfg s evs
    exact batch_processor_run_conserves cfg writeOk evs s

/-- Witness for C5: a one-point batch under an always-failing write is
reported failed, nothing is committed, and the processor clears it. -/
theorem C5_witness :
    alwaysFail [pGood] = false ∧
    (store_batch alwaysFail storW [pGood]).1 = false ∧
    (store_batch alwaysFail storW [pGood]).2.committed = storW.committed ∧
    ((batch_processor_step cfgB alwaysFail sBatch none 2).1.batch = [] ∧
      (batch_processor_step cfgB alwaysFail sBatch none 2).1.storage.committed
        = sBatch.storage.committed) :=
  ⟨rfl,
    (C5_store_batch_failure_discards alwaysFail storW [pGood] rfl).1,
    (C5_store_batch_failure_discards alwaysFail storW [pGood] rfl).2.1,
    (C5_store_batch_failure_discards alwaysFail storW [pGood] rfl).2.2.1
      cfgB sBatch none 2
      (by norm_num [batch_processor_step, should_flush, sBatch, cfgB, storW])⟩

/-- C6 counterexample: with the pipeline started at time 0 and one
processed point, a metrics read at time 1/2 reports throughput 1, not
the reference ratio total_processed / elapsed = 2, because the code
divides by max(elapsed, 1). -/
theorem C6_counterexample :
    (get_metrics stMetrics (1/2)).throughput_per_sec = 1 ∧
    (stMetrics.total_processed : ℚ) / ((1 : ℚ)/2 - 0) = 2 ∧
    (get_metrics stMetrics (1/2)).throughput_per_sec
      ≠ (stMetrics.total_processed : ℚ) / ((1 : ℚ)/2 - 0) := by
  have hmax : max ((1 : ℚ)/2 - 0) 1 = 1 := max_eq_right (by norm_num)
  have hA : (get_metrics stMetrics (1/2)).throughput_per_sec = 1 := by
    simp only [get_metrics, stMetrics, initPipeline]
    rw [hmax]
    norm_num
  have hB : (stMetrics.total_processed : ℚ) / ((1 : ℚ)/2 - 0) = 2 := by
    norm_num [stMetrics, initPipeline]
  exact ⟨hA, hB, by rw [hA, hB]; norm_num⟩

/-- C6 amended: after start, get_metrics reports throughput_per_sec
equal to total_processed divided by max(elapsed seconds, 1). -/
theorem C6_throughput_amended (st : PipelineState) (now t0 : ℚ)
    (h : st.start_time = some t0) :
    (get_metrics st now).throughput_per_sec
      = (st.total_processed : ℚ) / max (now - t0) 1 := by
  simp [get_metrics, h]

/-- Witness for the amended C6 at the concrete started state. -/
theorem C6_witness :
    (get_metrics stMetrics (1/2)).throughput_per_sec
      = (stMetrics.total_processed : ℚ) / max ((1 : ℚ)/2 - 0) 1 :=
  C6_throughput_amended stMetrics (1/2) 0 rfl

/-- C7 counterexample: ingesting a valid point that has no timestamp
mutates the caller's point in place (the code assigns
data_point.timestamp), so the point after the call differs from the
point before it. -/
theorem C7_counterexample :
    (ingest_data_point cfgW initPipeline pNoTs dtW 0).point ≠ pNoTs := by
  decide

/-- C7 amended: the timestamp stamping is the only mutation: a point
whose timestamp is already present is returned field-for-field unchanged
by ingest_data_point, and every rejected point is returned unchanged as
well (validation fails before the stamping assignment is reached, so a
rejected point is untouched even when its timestamp is absent). -/
theorem C7_stamping_only_mutation (cfg : PipelineConfig)
    (st : PipelineState) (p : MarketDataPoint) (now : PyDatetime) (lat : ℚ) :
    (p.timestamp.isSome = true →
      (ingest_data_point cfg st p now lat).point = p) ∧
    ((ingest_data_point cfg st p now lat).result = false →
      (ingest_data_point cfg st p now lat).point = p) := by
  constructor
  · intro h
    obtain ⟨t, ht⟩ := Option.isSome_iff_exists.mp h
    by_cases hacc : (validate_price_data st.validator p).accepted <;>
      simp [ingest_data_point, hacc, ht]
  · intro h
    by_cases hacc : (validate_price_data st.validator p).accepted
    · simp [ingest_data_point, hacc] at h
    · simp [ingest_data_point, hacc]

/-- Witness for the amended C7: a concrete timestamped accepted point is
unchanged, and a concrete rejected point with no timestamp is unchanged
too. -/
theorem C7_witness :
    (ingest_data_point cfgW initPipeline pGood dtW 0).point = pGood ∧
    (ingest_data_point cfgW initPipeline pBadNoTs dtW 0).point = pBadNoTs :=
  ⟨(C7_stamping_only_mutation cfgW initPipeline pGood dtW 0).1 (by decide),
    (C7_stamping_only_mutation cfgW initPipeline pBadNoTs dtW 0).2 (by decide)⟩

end DataPipeline

namespace DataPipeline

/-- Helper: reading back one printed digit. -/
theorem parseDigit_digitChar (n : Nat) (h : n < 10) :
    parseDigit (digitChar n) = some n := by
  interval_cases n <;> decide

/-- Helper: reading back a two-digit field. -/
theorem parse2_pad2 (n : Nat) (h : n < 100) (rest : List Char) :
    parse2 (pad2 n ++ rest) = some (n, rest) := by
  have h1 : n / 10 % 10 < 10 := Nat.mod_lt _ (by norm_num)
  have h2 : n % 10 < 10 := Nat.mod_lt _ (by norm_num)
  simp [pad2, parse2, parseDigit_digitChar _ h1, parseDigit_digitChar _ h2]
  omega

/-- Helper: reading back a two-digit field at the end of input. -/
theorem parse2_pad2_nil (n : Nat) (h : n < 100) :
    parse2 (pad2 n) = some (n, []) := by
  have := parse2_pad2 n h []
  simpa using this

/-- Helper: reading back the four-digit year field. -/
theorem parse4_pad4 (n : Nat) (h : n < 10000) (rest : List Char) :
    parse4 (pad4 n ++ rest) = some (n, rest) := by
  have h1 : n / 1000 % 10 < 10 := Nat.mod_lt _ (by norm_num)
  have h2 : n / 100 % 10 < 10 := Nat.mod_lt _ (by norm_num)
  have h3 : n / 10 % 10 < 10 := Nat.mod_lt _ (by norm_num)
  have h4 : n % 10 < 10 := Nat.mod_lt _ (by norm_num)
  simp [pad4, parse4, parseDigit_digitChar _ h1, parseDigit_digitChar _ h2,
    parseDigit_digitChar _ h3, parseDigit_digitChar _ h4]
  omega

/-- Helper: reading back the six-digit microsecond field. -/
theorem parse6_pad6 (n : Nat) (h : n < 1000000) (rest : List Char) :
    parse6 (pad6 n ++ rest) = some (n, rest) := by
  have h1 : n / 100000 % 10 < 10 := Nat.mod_lt _ (by norm_num)
  have h2 : n / 10000 % 10 < 10 := Nat.mod_lt _ (by norm_num)
  have h3 : n / 1000 % 10 < 10 := Nat.mod_lt _ (by norm_num)
  have h4 : n / 100 % 10 < 10 := Nat.mod_lt _ (by norm_num)
  have h5 : n / 10 % 10 < 10 := Nat.mod_lt _ (by norm_num)
  have h6 : n % 10 < 10 := Nat.mod_lt _ (by norm_num)
  simp [pad6, parse6, parseDigit_digitChar _ h1, parseDigit_digitChar _ h2,
    parseDigit_digitChar _ h3, parseDigit_digitChar _ h4,
    parseDigit_digitChar _ h5, parseDigit_digitChar _ h6]
  omega

/-- Helper: consuming the expected separator. -/
theorem expectChar_cons (c : Char) (rest : List Char) :
    expectChar c (c :: rest) = some rest := by
  simp [expectChar]

/-- Helper: the offset suffix is not a fractional part. -/
theorem parseMicro_tzChars (off : Int) :
    parseMicro (tzChars off) = some (0, tzChars off) := by
  unfold tzChars
  by_cases hs : (0 : Int) ≤ off
  · rw [if_pos hs]
    simp [parseMicro]
  · rw [if_neg hs]
    simp [parseMicro]

/-- Helper: reading back the printed UTC offset. -/
theorem parseTz_tzChars (off : Int) (h : off.natAbs ≤ 1439) :
    parseTz (tzChars off) = some (some off) := by
  have hh : off.natAbs / 60 < 100 := by omega
  have hm : off.natAbs % 60 < 100 := by omega
  unfold tzChars
  by_cases hs : (0 : Int) ≤ off
  · rw [if_pos hs]
    simp [parseTz, parse2_pad2 _ hh, parse2_pad2_nil _ hm, expectChar_cons]
    simp only [Int.abs_eq_natAbs]
    omega
  · rw [if_neg hs]
    simp [parseTz, parse2_pad2 _ hh, parse2_pad2_nil _ hm, expectChar_cons]
    simp only [Int.abs_eq_natAbs]
    omega

/-- Helper: reading back the microsecond field at the end of input. -/
theorem parse6_pad6_nil (n : Nat) (h : n < 1000000) :
    parse6 (pad6 n) = some (n, []) := by
  have := parse6_pad6 n h []
  simpa using this

set_option maxHeartbeats 1000000 in
/-- Helper: fromisoformat inverts isoformat on every constructible
datetime. -/
theorem fromisoformat_isoformat (year month day hour minute second micro : Nat)
    (tz : Option Int)
    (hval : PyDatetime.valid ⟨year, month, day, hour, minute, second, micro, tz⟩) :
    fromisoformat (isoformat ⟨year, month, day, hour, minute, second, micro, tz⟩)
      = some ⟨year, month, day, hour, minute, second, micro, tz⟩ := by
  simp only [PyDatetime.valid] at hval
  obtain ⟨hy1, hy2, hmo1, hmo2, hd1, hd2, hh, hmi, hsec, hmic, htz⟩ := hval
  have hy : year < 10000 := by omega
  have hmo : month < 100 := by omega
  have hd : day < 100 := by omega
  have hhr : hour < 100 := by omega
  have hmin : minute < 100 := by omega
  have hs2 : second < 100 := by omega
  have hmic6 : micro < 1000000 := by omega
  unfold isoformat fromisoformat
  by_cases hm0 : micro = 0
  · rw [if_pos hm0]
    cases tz with
    | none =>
      simp only [List.append_assoc, List.cons_append, List.append_nil,
        List.nil_append, parse4_pad4 _ hy, parse2_pad2 _ hmo, parse2_pad2 _ hd,
        parse2_pad2 _ hhr, parse2_pad2 _ hmin, parse2_pad2 _ hs2,
        parse2_pad2_nil _ hs2, parse6_pad6_nil _ hmic6, expectChar_cons,
        parseMicro, parseTz, Option.bind_eq_bind, Option.some_bind,
        Option.pure_def, Option.some.injEq]
      try simp [hm0]
    | some off =>
      have hoff : off.natAbs ≤ 1439 := htz off rfl
      simp only [List.append_assoc, List.cons_append, List.append_nil,
        List.nil_append, parse4_pad4 _ hy, parse2_pad2 _ hmo, parse2_pad2 _ hd,
        parse2_pad2 _ hhr, parse2_pad2 _ hmin, parse2_pad2 _ hs2,
        parse2_pad2_nil _ hs2, parse6_pad6_nil _ hmic6, expectChar_cons,
        parseMicro_tzChars, parseTz_tzChars _ hoff, Option.bind_eq_bind,
        Option.some_bind, Option.pure_def, Option.some.injEq]
      try simp [hm0]
  · rw [if_neg hm0]
    cases tz with
    | none =>
      simp only [List.append_assoc, List.cons_append, List.append_nil,
        List.nil_append, parse4_pad4 _ hy, parse2_pad2 _ hmo, parse2_pad2 _ hd,
        parse2_pad2 _ hhr, parse2_pad2 _ hmin, parse2_pad2 _ hs2,
        parse2_pad2_nil _ hs2, parse6_pad6_nil _ hmic6, expectChar_cons,
        parseMicro, parse6_pad6 _ hmic6, parseTz, Option.bind_eq_bind,
        Option.some_bind, Option.pure_def, Option.some.injEq]
      try simp
    | some off =>
      have hoff : off.natAbs ≤ 1439 := htz off rfl
      simp only [List.append_assoc, List.cons_append, List.append_nil,
        List.nil_append, parse4_pad4 _ hy, parse2_pad2 _ hmo, parse2_pad2 _ hd,
        parse2_pad2 _ hhr, parse2_pad2 _ hmin, parse2_pad2 _ hs2,
        parse2_pad2_nil _ hs2, parse6_pad6_nil _ hmic6, expectChar_cons,
        parseMicro, parse6_pad6 _ hmic6, parseTz_tzChars _ hoff,
        Option.bind_eq_bind, Option.some_bind, Option.pure_def,
        Option.some.injEq]
      try simp

/-- C10: for every point whose timestamp is a timezone-aware
constructible datetime, from_dict inverts to_dict exactly: the
isoformat string written by to_dict parses back to the identical
datetime and every other field passes through unchanged. -/
theorem C10_to_dict_from_dict_roundtrip (p : MarketDataPoint) (d : PyDatetime)
    (h1 : p.timestamp = some d) (h2 : d.tzOffset.isSome = true)
    (h3 : d.valid) :
    (to_dict p).bind from_dict = some p := by
  obtain ⟨year, month, day, hour, minute, second, micro, tz⟩ := d
  have hiso := fromisoformat_isoformat year month day hour minute second micro tz h3
  simp [to_dict, h1, from_dict, hiso]
  rw [← h1]

/-- Witness for C10 at the concrete aware datetime
2024-01-02T03:04:05.000006+05:30. -/
theorem C10_witness : (to_dict pGood).bind from_dict = some pGood :=
  C10_to_dict_from_dict_roundtrip pGood dtW rfl rfl (by decide)

end DataPipeline

namespace DataPipeline

/-- Helper: histSet preserves positivity when the written list is
all-positive. -/
theorem histSet_allPos (l : List (String × List ℚ)) (sym : String)
    (ps : List ℚ) (hall : ∀ pr ∈ l, ∀ q ∈ pr.2, 0 < q)
    (hps : ∀ q ∈ ps, 0 < q) :
    ∀ pr ∈ histSet l sym ps, ∀ q ∈ pr.2, 0 < q := by
  induction l with
  | nil =>
    intro pr hpr q hq
    simp [histSet] at hpr
    rw [hpr] at hq
    exact hps q hq
  | cons a rest ih =>
    intro pr hpr q hq
    obtain ⟨s, qs⟩ := a
    by_cases hs : s = sym
    · rw [histSet, if_pos hs] at hpr
      rcases List.mem_cons.mp hpr with h | h
      · rw [h] at hq
        exact hps q hq
      · exact hall pr (List.mem_cons_of_mem _ h) q hq
    · rw [histSet, if_neg hs] at hpr
      rcases List.mem_cons.mp hpr with h | h
      · rw [h] at hq
        exact hall (s, qs) (List.mem_cons_self _ _) q hq
      · exact ih (fun pr2 hpr2 => hall pr2 (List.mem_cons_of_mem _ hpr2)) pr h q hq

/-- Helper: the validator state after any validation call retains the
all-positive history invariant: a price is appended only after the
positivity check passed. -/
theorem validate_price_data_preserves_allPos (v : ValidatorState)
    (p : MarketDataPoint) (hall : v.allPos) :
    (validate_price_data v p).state.allPos := by
  have hnew : ¬p.price ≤ 0 → ∀ q ∈ dequeAppend max_history
      (histFind v.price_history p.symbol) p.price, 0 < q := by
    intro h1 q hq
    unfold dequeAppend at hq
    have hq2 := List.drop_subset _ _ hq
    rcases List.mem_append.mp hq2 with h | h
    · exact histFind_pos v p.symbol hall q h
    · rw [List.mem_singleton.mp h]
      exact lt_of_not_le h1
  simp only [validate_price_data]
  by_cases h1 : p.price ≤ 0
  · rw [if_pos h1]
    exact hall
  · rw [if_neg h1]
    by_cases h2 : p.volume < 0
    · rw [if_pos h2]
      exact hall
    · rw [if_neg h2]
      split
      · split
        · simpa using hall
        · simpa [ValidatorState.allPos] using
            histSet_allPos v.price_history p.symbol _ hall (hnew h1)
      · simpa [ValidatorState.allPos] using
          histSet_allPos v.price_history p.symbol _ hall (hnew h1)

/-- Helper: ingest preserves the all-positive history invariant, so the
hypothesis of the acceptance theorem holds in every reachable pipeline
state. -/
theorem ingest_data_point_preserves_allPos (cfg : PipelineConfig)
    (st : PipelineState) (p : MarketDataPoint) (now : PyDatetime) (lat : ℚ)
    (hall : st.validator.allPos) :
    (ingest_data_point cfg st p now lat).state.validator.allPos := by
  have hpres := validate_price_data_preserves_allPos st.validator p hall
  by_cases hacc : (validate_price_data st.validator p).accepted <;>
    simp [ingest_data_point, hacc] <;> exact hpres

end DataPipeline
